import Mathlib

/-!
Shallow embedding of the session discovery / export subsystem of `cli.js`
(the JSONL session browser of the codexmate repository), together with
theorems checking the specification's claims about it.

Modelling conventions, used consistently below:
* JavaScript strings are `String`; an absent (`undefined`/`null`) string
  field is modelled as `""`, matching the code's falsiness checks.
* JavaScript numbers used as timestamps are `Int` (milliseconds); `NaN`
  is `Option.none`.
* The JavaScript `Date` built-in (an external collaborator of the code)
  is a parameter `JsDate` with a parsing and an ISO-rendering function.
* File-system reads are modelled by explicit state (`FS`, `SessionEnv`)
  passed to the embedded functions; every path stored in the model is
  already absolute and normalized, so `path.resolve` is the identity on
  them and `path.sep` is `"/"`.
-/

/-! ### JS string primitives (trim, whitespace collapse, includes) -/

/-- The whitespace class used by JS `trim` / `\s`, restricted to the ASCII
whitespace characters that can occur in the modelled data. -/
def isJsWs (c : Char) : Bool :=
  c == ' ' || c == '\t' || c == '\n' || c == '\r'

/-- Character-list version of JS `String.prototype.trim`: drop whitespace
from both ends. -/
def trimChars (l : List Char) : List Char :=
  ((l.dropWhile isJsWs).reverse.dropWhile isJsWs).reverse

/-- Embeds JS `String.prototype.trim`. -/
def jsTrim (s : String) : String :=
  ⟨trimChars s.data⟩

/-- Helper for `collapseRuns`: the flag records whether the previous
character was whitespace (so the single replacement space for the current
run has already been emitted). -/
def collapseGo : Bool → List Char → List Char
  | _, [] => []
  | inRun, c :: rest =>
    if isJsWs c then
      if inRun then collapseGo true rest else ' ' :: collapseGo true rest
    else c :: collapseGo false rest

/-- Character-list version of JS `replace(/\s+/g, ' ')`: every maximal run
of whitespace becomes a single space. -/
def collapseRuns (l : List Char) : List Char :=
  collapseGo false l

/-- Embeds JS `text.replace(/\s+/g, ' ').trim()`, the normalization used by
`truncateText` and `isBootstrapLikeText` in `cli.js`. -/
def normalizeWs (s : String) : String :=
  jsTrim ⟨collapseRuns s.data⟩

/-- Character-list version of JS `String.prototype.includes`. -/
def containsChars (l sub : List Char) : Bool :=
  if sub.isPrefixOf l then true
  else
    match l with
    | [] => false
    | _ :: rest => containsChars rest sub

/-- Embeds JS `s.includes(sub)`. -/
def strContains (s sub : String) : Bool :=
  containsChars s.data sub.data

/-- Embeds JS `String.prototype.toLowerCase`, on the ASCII data the code
handles. -/
def jsToLower (s : String) : String :=
  ⟨s.data.map Char.toLower⟩

/-- Embeds JS `String.prototype.startsWith`. -/
def strStartsWith (s p : String) : Bool :=
  p.data.isPrefixOf s.data

/-- Embeds JS `String.prototype.endsWith`. -/
def strEndsWith (s p : String) : Bool :=
  p.data.reverse.isPrefixOf s.data.reverse

/-! ### The JS `Date` built-in, as an external collaborator -/

/-- Model of the JS `Date` built-in used by `cli.js`: `parse` is
`Date.parse` / `new Date(v).getTime()` (`none` for `NaN`), `iso` is
`Date.prototype.toISOString`. -/
structure JsDate where
  parse : String → Option Int
  iso : Int → String

/-- Embeds `toIsoTime(value, fallback)` (cli.js:162): empty/absent or unparsable
values yield the fallback, otherwise the ISO rendering of the parsed
date. -/
def toIsoTime (jd : JsDate) (value fallback : String) : String :=
  if value = "" then fallback
  else
    match jd.parse value with
    | none => fallback
    | some t => jd.iso t

/-! ### truncateText and extractMessageText -/

/-- Embeds `truncateText(text, maxLength = 90)` (cli.js:173): collapse whitespace,
trim, and hard-cap at `maxLength` characters with a trailing ellipsis.
JS `slice` counts UTF-16 units; the modelled data is within the BMP so
counting characters agrees. -/
def truncateText (text : String) (maxLength : Nat := 90) : String :=
  if text = "" then ""
  else
    let normalized := normalizeWs text
    if normalized.length ≤ maxLength then normalized
    else ⟨normalized.data.take (maxLength - 1)⟩ ++ "…"

/-- The shapes a JSON `content` value can take, as far as
`extractMessageText` (cli.js:180) inspects them: a string, an ordered
sequence, an object probed for the fields `text` / `value` / `content` /
`output` (each `none` when the field is absent or not a string), or
anything else (`null`, numbers, booleans), which yields empty text. -/
inductive Content where
  | str (s : String)
  | arr (items : List Content)
  | obj (text : Option String) (value : Option String)
      (content : Option Content) (output : Option String)
  | other

mutual

/-- Embeds `extractMessageText(content)` (cli.js:180): strings are trimmed;
sequences are extracted elementwise (`extractParts` is the `map` over the
elements), empty parts dropped, joined with newlines, and trimmed;
objects try `text`, `value`, a recursive `content`, then `output`;
anything else yields `""`. -/
def extractMessageText : Content → String
  | .str s => jsTrim s
  | .arr items =>
    jsTrim (String.intercalate "\n"
      ((extractParts items).filter fun t => t ≠ ""))
  | .obj t v c o =>
    match t with
    | some s => jsTrim s
    | none =>
      match v with
      | some s => jsTrim s
      | none =>
        match c with
        | some inner => extractMessageText inner
        | none =>
          match o with
          | some s => jsTrim s
          | none => ""
  | .other => ""

/-- Embeds `content.map(item => extractMessageText(item))` in the sequence case
of `extractMessageText`. -/
def extractParts : List Content → List String
  | [] => []
  | c :: rest => extractMessageText c :: extractParts rest

end

/-! ### Roles, bootstrap detection, leading-message filter -/

/-- Embeds `normalizeRole(value)` (cli.js:584): trim, lowercase, and keep only the
three recognized roles. -/
def normalizeRole (value : String) : String :=
  let role := jsToLower (jsTrim value)
  if role = "assistant" || role = "user" || role = "system" then role else ""

/-- Embeds `BOOTSTRAP_TEXT_MARKERS` (cli.js:38). -/
def BOOTSTRAP_TEXT_MARKERS : List String :=
  ["agents.md instructions", "<instructions>", "<environment_context>",
   "you are a coding agent", "codex cli"]

/-- Embeds `isBootstrapLikeText(text)` (cli.js:595): lowercase, collapse
whitespace, trim, then substring-match against the fixed marker list. -/
def isBootstrapLikeText (text : String) : Bool :=
  if text = "" then false
  else
    let normalized := normalizeWs (jsToLower text)
    if normalized = "" then false
    else BOOTSTRAP_TEXT_MARKERS.any fun marker => strContains normalized marker

/-- A normalized chat message as handled by the session subsystem;
`timestamp` is `""` when absent. -/
structure Message where
  role : String
  text : String
  timestamp : String
deriving DecidableEq, Repr

/-- The scan loop of `removeLeadingSystemMessage` (cli.js:613): starting
from index `i`, advance past messages whose (normalized) role is
`system` or whose text is bootstrap-like. Model note: list elements are
always present, so the JS `!item` guard never fires. -/
def findStartIndex (l : List Message) (i : Nat) : Nat :=
  if h : i < l.length then
    if normalizeRole (l.get ⟨i, h⟩).role == "system"
        || isBootstrapLikeText (l.get ⟨i, h⟩).text then
      findStartIndex l (i + 1)
    else i
  else i
termination_by l.length - i

/-- Embeds `removeLeadingSystemMessage(messages)` (cli.js:608): empty input maps
to empty; otherwise the scan starts at index 1 (index 0 is skipped
unconditionally) and the list from the first non-skipped index on is
returned. -/
def removeLeadingSystemMessage (messages : List Message) : List Message :=
  if messages.isEmpty then []
  else
    let startIndex := findStartIndex messages 1
    if startIndex = 0 then messages else messages.drop startIndex

/-! ### Session summaries, dedup, sort, merge -/

/-- A session summary, as produced by the summary extractors
(`parseCodexSessionSummary` / `parseClaudeSessionSummary`) and the Format
B index fast path. -/
structure Summary where
  source : String
  sourceLabel : String
  sessionId : String
  title : String
  cwd : String
  createdAt : String
  updatedAt : String
  messageCount : Nat
  filePath : String
deriving DecidableEq, Repr

/-- The dedup key `` `${item.source}:${item.filePath}` `` of
`mergeAndLimitSessions` (cli.js:676). -/
def sessionKey (s : Summary) : String :=
  s.source ++ ":" ++ s.filePath

/-- The dedup loop of `mergeAndLimitSessions` (cli.js:672), with the JS
`Set` of seen keys as an explicit list. Items with an empty `filePath`
are skipped (`!item.filePath`); model lists hold no `null` items. -/
def dedupeLoop : List Summary → List String → List Summary
  | [], _ => []
  | item :: rest, seen =>
    if item.filePath = "" then dedupeLoop rest seen
    else if seen.contains (sessionKey item) then dedupeLoop rest seen
    else item :: dedupeLoop rest (sessionKey item :: seen)

/-- The deduplication stage of `mergeAndLimitSessions`. -/
def dedupeSessions (items : List Summary) : List Summary :=
  dedupeLoop items []

/-- The sort key `Date.parse(a.updatedAt || '') || 0` of
`sortSessionsByUpdatedAt` (cli.js:664): unparsable or missing timestamps
count as 0. -/
def updatedKey (jd : JsDate) (s : Summary) : Int :=
  (jd.parse s.updatedAt).getD 0

/-- The JS comparator `(a, b) => bTime - aTime` of `sortSessionsByUpdatedAt`
orders `a` before `b` when `bTime - aTime ≤ 0`. -/
def sessionDescLe (jd : JsDate) (a b : Summary) : Bool :=
  updatedKey jd b ≤ updatedKey jd a

/-- Embeds `sortSessionsByUpdatedAt(items)` (cli.js:662): stable sort by
`updatedAt` descending (JS `Array.prototype.sort` is stable). -/
def sortSessionsByUpdatedAt (jd : JsDate) (items : List Summary) : List Summary :=
  items.mergeSort (sessionDescLe jd)

/-- Embeds `mergeAndLimitSessions(items, limit)` (cli.js:671): dedupe by
`(source, filePath)` key, sort by `updatedAt` descending, truncate. -/
def mergeAndLimitSessions (jd : JsDate) (items : List Summary) (limit : Nat) :
    List Summary :=
  (sortSessionsByUpdatedAt jd (dedupeSessions items)).take limit

/-- The specification's description of the dedup stage, for comparison
with `dedupeSessions`: walk the list, keep the first occurrence of each
`(source, filePath)` pair, drop the later ones (and drop items with no
`filePath`). -/
def dedupeSpec : List Summary → List Summary
  | [] => []
  | item :: rest =>
    if item.filePath = "" then dedupeSpec rest
    else
      item :: dedupeSpec (rest.filter fun y =>
        ¬(y.source = item.source ∧ y.filePath = item.filePath))
termination_by l => l.length
decreasing_by
  · simp
  · refine Nat.lt_of_le_of_lt (List.length_filter_le _ rest) ?_
    simp

/-! ### Configuration constants (cli.js:27-37) -/

def MAX_SESSION_LIST_SIZE : Nat := 300

def MAX_EXPORT_MESSAGES : Nat := 1000

def DEFAULT_SESSION_DETAIL_MESSAGES : Nat := 300

def MAX_SESSION_DETAIL_MESSAGES : Nat := 1000

/-- Embeds `SESSION_TITLE_READ_BYTES = 64 * 1024` (cli.js:31): the size of the
head re-read used by the summary extractors when no title was found. -/
def SESSION_TITLE_READ_BYTES : Nat := 64 * 1024

/-- Embeds `SESSION_SUMMARY_READ_BYTES = 256 * 1024` (cli.js:34): the default
head-read size used for session summaries. -/
def SESSION_SUMMARY_READ_BYTES : Nat := 256 * 1024

def SESSION_LIST_CACHE_TTL_MS : Int := 4000

def SESSION_SCAN_FACTOR : Nat := 4

def SESSION_SCAN_MIN_FILES : Nat := 800

/-- Embeds `CODEX_SESSIONS_DIR` (cli.js:22), with the home directory of the
modelled machine fixed to `/home/user`. -/
def CODEX_SESSIONS_DIR : String := "/home/user/.codex/sessions"

/-- Embeds `CLAUDE_PROJECTS_DIR` (cli.js:23). -/
def CLAUDE_PROJECTS_DIR : String := "/home/user/.claude/projects"

/-! ### Filesystem model -/

/-- First-order model of the parts of the filesystem the session
subsystem reads: the regular files (absolute resolved paths), the
directories, per-file sizes and modification times (association lists;
missing entries default to 0). -/
structure FS where
  files : List String
  dirs : List String
  sizes : List (String × Nat)
  mtimes : List (String × Int)
deriving DecidableEq, Repr

/-- Embeds `fs.existsSync(p)`: the path is a regular file or a directory. -/
def FS.existsPath (fs : FS) (p : String) : Bool :=
  fs.files.contains p || fs.dirs.contains p

/-- Embeds `fs.statSync(p).isFile()` (only queried on existing paths). -/
def FS.isFile (fs : FS) (p : String) : Bool :=
  fs.files.contains p

/-- Embeds `fs.statSync(p).size` for an existing regular file. -/
def FS.sizeOfFile (fs : FS) (p : String) : Nat :=
  ((fs.sizes.find? fun e => e.1 = p).map Prod.snd).getD 0

/-- Embeds `fs.statSync(p).mtimeMs` for an existing regular file. -/
def FS.mtimeMsOf (fs : FS) (p : String) : Int :=
  ((fs.mtimes.find? fun e => e.1 = p).map Prod.snd).getD 0

/-- Embeds `fs.unlinkSync(p)`. -/
def FS.unlink (fs : FS) (p : String) : FS :=
  { fs with files := fs.files.erase p }

/-- Embeds `path.basename(p)`: the last `/`-separated component. -/
def baseNameOf (p : String) : String :=
  ⟨(p.data.reverse.takeWhile fun c => c ≠ '/').reverse⟩

/-- Embeds `path.basename(p, '.jsonl')`: the last component with a trailing
`.jsonl` removed when present. -/
def baseNameNoExt (p : String) : String :=
  let b := baseNameOf p
  if strEndsWith b ".jsonl" then b.dropRight 6 else b

/-- Embeds `isPathInside(targetPath, rootPath)` (cli.js:473): compare the
lowercased resolved paths; inside means equal to the root or an
extension of it across a path separator. Paths in the model are already
resolved, so `path.resolve` is the identity. -/
def isPathInside (targetPath rootPath : String) : Bool :=
  let resolvedTarget := jsToLower targetPath
  let resolvedRoot := jsToLower rootPath
  if resolvedTarget == resolvedRoot then true
  else
    let rootWithSlash :=
      if strEndsWith resolvedRoot "/" then resolvedRoot else resolvedRoot ++ "/"
    strStartsWith resolvedTarget rootWithSlash

/-- Embeds `collectJsonlFiles(rootDir, maxFiles = 5000)` (cli.js:483). The JS
walks the directory tree depth-first and stops after `maxFiles` files;
in the flat filesystem model the walk yields the regular `.jsonl` files
whose path lies strictly under `rootDir`, capped at `maxFiles`. -/
def collectJsonlFiles (fs : FS) (rootDir : String) (maxFiles : Nat) :
    List String :=
  if fs.existsPath rootDir then
    ((fs.files.filter fun p =>
      strStartsWith p (rootDir ++ "/") && strEndsWith p ".jsonl").take maxFiles)
  else []

/-- Embeds `collectRecentJsonlFiles(rootDir, options)` (cli.js:685): collect at
most `maxFilesScanned` `.jsonl` files under the root (skipping paths that
contain `ignoreSubPath` when it is nonempty), order them by modification
time descending, and return the first `returnCount`. The directory walk
is modelled as in `collectJsonlFiles`; the scan cap applies before the
sort, as in the source. -/
def collectRecentJsonlFiles (fs : FS) (rootDir : String)
    (returnCount maxFilesScanned : Nat) (ignoreSubPath : String) :
    List String :=
  if fs.existsPath rootDir then
    let candidates := fs.files.filter fun p =>
      strStartsWith p (rootDir ++ "/") && strEndsWith p ".jsonl"
        && !(ignoreSubPath ≠ "" && strContains p ignoreSubPath)
    let scanned := candidates.take maxFilesScanned
    (scanned.mergeSort fun a b => fs.mtimeMsOf b ≤ fs.mtimeMsOf a).take
      returnCount
  else []

/-- Embeds `resolveSessionFilePath(source, filePath, sessionId)` (cli.js:1108):
prefer an explicit `filePath` that exists and passes the containment
check against the per-source root; otherwise search the collected
`.jsonl` files for one whose basename contains the lowercased
`sessionId`; `""` when nothing resolves. -/
def resolveSessionFilePath (fs : FS) (source filePath sessionId : String) :
    String :=
  let root := if source = "claude" then CLAUDE_PROJECTS_DIR else CODEX_SESSIONS_DIR
  if !fs.existsPath root then ""
  else
    let byPath :=
      if jsTrim filePath ≠ "" then
        let targetPath := jsTrim filePath
        if fs.existsPath targetPath && isPathInside targetPath root then
          targetPath
        else ""
      else ""
    if byPath ≠ "" then byPath
    else if jsTrim sessionId ≠ "" then
      let targetId := jsToLower (jsTrim sessionId)
      match (collectJsonlFiles fs root 5000).find? fun item =>
          strContains (jsToLower (baseNameOf item)) targetId with
      | some matchedFile => if fs.existsPath matchedFile then matchedFile else ""
      | none => ""
    else ""

/-! ### Session list cache (cli.js:737-772) -/

/-- The module-level `g_sessionListCache`, a JS `Map` modelled as an
insertion-ordered association list of `(key, (timestamp, value))`. -/
abbrev SessionCache : Type := List (String × Int × List Summary)

/-- Embeds `getSessionListCache(cacheKey, forceRefresh)` (cli.js:737), with the
current time `now` explicit. Returns the cached value (when present and
within the TTL) and the possibly-updated cache. -/
def getSessionListCache (cache : SessionCache) (cacheKey : String)
    (forceRefresh : Bool) (now : Int) : Option (List Summary) × SessionCache :=
  if forceRefresh then (none, cache.filter fun e => e.1 ≠ cacheKey)
  else
    match cache.find? fun e => e.1 = cacheKey with
    | none => (none, cache)
    | some entry =>
      if SESSION_LIST_CACHE_TTL_MS < now - entry.2.1 then
        (none, cache.filter fun e => e.1 ≠ cacheKey)
      else (some entry.2.2, cache)

/-- Embeds `setSessionListCache(cacheKey, value)` (cli.js:756): store under the
current time (a JS `Map.set` keeps the position of an existing key),
then evict the oldest-inserted entry if the map exceeds 20 entries. -/
def setSessionListCache (cache : SessionCache) (cacheKey : String)
    (now : Int) (value : List Summary) : SessionCache :=
  let updated :=
    if (cache.find? fun e => e.1 = cacheKey).isSome then
      cache.map fun e => if e.1 = cacheKey then (cacheKey, now, value) else e
    else cache ++ [(cacheKey, now, value)]
  if 20 < updated.length then updated.drop 1 else updated

/-- Embeds `invalidateSessionListCache()` (cli.js:770). -/
def invalidateSessionListCache (_cache : SessionCache) : SessionCache := []

/-! ### Parsed JSONL records

`cli.js` reads newline-delimited JSON and keeps only the lines that parse
(`parseJsonlContent`, cli.js:558). The model works at the record level:
the filesystem environment below maps each file to the record sequences
the three kinds of read produce, and a file with zero parseable lines
maps to `[]`. -/

/-- The fields of `record.payload` that Format A handling inspects
(string fields are `""` when absent). -/
structure Payload where
  ptype : String
  role : String
  content : Content
  id : String
  cwd : String
  timestamp : String

/-- A parsed JSONL record, covering the fields inspected by either format:
`type`, `timestamp`, Format A's `payload`, Format B's `message.content`
(wrapped in `Option` for an absent `message`), `cwd` and `sessionId`. -/
structure Rec where
  rtype : String
  timestamp : String
  payload : Option Payload
  message : Option Content
  cwd : String
  sessionId : String

/-- Per-file read results: `headRecs` is the parse of the default
256 KiB head read, `titleRecs` of the 64 KiB title re-read, `fullRecs`
of a full read (streamed or buffered — both yield the same records);
`statOk` is whether `fs.statSync` succeeds and `mtimeIso` is the file
modification time as an ISO string. -/
structure SessionEnv where
  fs : FS
  headRecs : String → List Rec
  titleRecs : String → List Rec
  fullRecs : String → List Rec
  statOk : String → Bool
  mtimeIso : String → String

/-! ### Summary extractors (cli.js:774-944) -/

/-- State threaded through the record walk of `parseCodexSessionSummary`. -/
structure SummaryScan where
  sessionId : String
  cwd : String
  createdAt : String
  updatedAt : String
  preview : List Message

/-- One step of the record loop of `parseCodexSessionSummary`
(cli.js:795-814): track the latest timestamp, absorb `session_meta`
identity metadata, and collect `response_item` messages. -/
def codexSummaryStep (jd : JsDate) (st : SummaryScan) (record : Rec) :
    SummaryScan :=
  let st :=
    if record.timestamp ≠ "" then
      { st with updatedAt := toIsoTime jd record.timestamp st.updatedAt }
    else st
  if record.rtype = "session_meta" then
    match record.payload with
    | some payload =>
      { st with
        sessionId := if payload.id ≠ "" then payload.id else st.sessionId
        cwd := if payload.cwd ≠ "" then payload.cwd else st.cwd
        createdAt := toIsoTime jd
          (if payload.timestamp ≠ "" then payload.timestamp else record.timestamp)
          st.createdAt }
    | none => st
  else if record.rtype = "response_item" then
    match record.payload with
    | some payload =>
      if payload.ptype = "message" then
        let role := normalizeRole payload.role
        if role = "user" || role = "assistant" || role = "system" then
          { st with preview := st.preview ++
              [{ role := role, text := extractMessageText payload.content,
                 timestamp := "" }] }
        else st
      else st
    | none => st
  else st

/-- The Format A message collection used by the title re-read of
`parseCodexSessionSummary` (cli.js:826-836): only `response_item`
messages, in order. -/
def codexTitleMessages (records : List Rec) : List Message :=
  records.foldl
    (fun acc record =>
      if record.rtype = "response_item" then
        match record.payload with
        | some payload =>
          if payload.ptype = "message" then
            let role := normalizeRole payload.role
            if role = "user" || role = "assistant" || role = "system" then
              acc ++ [{ role := role, text := extractMessageText payload.content,
                        timestamp := "" }]
            else acc
          else acc
        | none => acc
      else acc)
    []

/-- The shared tail of both summary extractors (cli.js:816-845): filter
the preview, count, pick the first user message with text as the title
(falling back to a title-only larger read, then to the session id). -/
def finishSummary (scan : SummaryScan) (titleMessages : List Message)
    (filePath : String) (source sourceLabel : String) : Summary :=
  let filteredPreviewMessages := removeLeadingSystemMessage scan.preview
  let messageCount := filteredPreviewMessages.length
  let firstUser := filteredPreviewMessages.find? fun item =>
    item.role = "user" && item.text ≠ ""
  let firstPrompt :=
    match firstUser with
    | some item => truncateText item.text
    | none => ""
  let firstPrompt :=
    if firstPrompt = "" then
      let filteredTitleMessages := removeLeadingSystemMessage titleMessages
      match filteredTitleMessages.find? fun item =>
          item.role = "user" && item.text ≠ "" with
      | some item => truncateText item.text
      | none => ""
    else firstPrompt
  { source := source
    sourceLabel := sourceLabel
    sessionId := scan.sessionId
    title := if firstPrompt ≠ "" then firstPrompt else scan.sessionId
    cwd := scan.cwd
    createdAt := scan.createdAt
    updatedAt := scan.updatedAt
    messageCount := Nat.max 0 messageCount
    filePath := filePath }

/-- Embeds `parseCodexSessionSummary(filePath)` (cli.js:774): `null` when the
head read yields no records or `statSync` fails; otherwise walk the head
records and finish with the title fallback over the 64 KiB re-read. -/
def parseCodexSessionSummary (jd : JsDate) (env : SessionEnv)
    (filePath : String) : Option Summary :=
  let records := env.headRecs filePath
  if records.isEmpty then none
  else if !env.statOk filePath then none
  else
    let scan0 : SummaryScan :=
      { sessionId := baseNameNoExt filePath, cwd := "", createdAt := ""
        updatedAt := env.mtimeIso filePath, preview := [] }
    let scan := records.foldl (codexSummaryStep jd) scan0
    some (finishSummary scan (codexTitleMessages (env.titleRecs filePath))
      filePath "codex" "Codex")

/-- One step of the record loop of `parseClaudeSessionSummary`
(cli.js:881-901): `createdAt` keeps the first timestamp, `updatedAt` the
latest, `cwd` the first nonempty one; the record's own `type` names the
role and `message.content` holds the body. -/
def claudeSummaryStep (jd : JsDate) (st : SummaryScan) (record : Rec) :
    SummaryScan :=
  let st :=
    if st.createdAt = "" && record.timestamp ≠ "" then
      { st with createdAt := toIsoTime jd record.timestamp st.createdAt }
    else st
  let st :=
    if record.timestamp ≠ "" then
      { st with updatedAt := toIsoTime jd record.timestamp st.updatedAt }
    else st
  let st :=
    if st.cwd = "" && record.cwd ≠ "" then { st with cwd := record.cwd }
    else st
  let role := normalizeRole record.rtype
  if role = "assistant" || role = "user" || role = "system" then
    let userContent := (record.message).getD (Content.str "")
    { st with preview := st.preview ++
        [{ role := role, text := extractMessageText userContent,
           timestamp := "" }] }
  else st

/-- The Format B message collection used by the title re-read of
`parseClaudeSessionSummary` (cli.js:912-922). -/
def claudeTitleMessages (records : List Rec) : List Message :=
  records.foldl
    (fun acc record =>
      let role := normalizeRole record.rtype
      if role = "assistant" || role = "user" || role = "system" then
        acc ++ [{ role := role,
                  text := extractMessageText ((record.message).getD (Content.str "")),
                  timestamp := "" }]
      else acc)
    []

/-- Embeds `parseClaudeSessionSummary(filePath)` (cli.js:860). -/
def parseClaudeSessionSummary (jd : JsDate) (env : SessionEnv)
    (filePath : String) : Option Summary :=
  let records := env.headRecs filePath
  if records.isEmpty then none
  else if !env.statOk filePath then none
  else
    let scan0 : SummaryScan :=
      { sessionId := baseNameNoExt filePath, cwd := "", createdAt := ""
        updatedAt := env.mtimeIso filePath, preview := [] }
    let scan := records.foldl (claudeSummaryStep jd) scan0
    some (finishSummary scan (claudeTitleMessages (env.titleRecs filePath))
      filePath "claude" "Claude Code")

/-! ### Per-source listing and the public list entry point -/

/-- The summary-collection loop of `listCodexSessions` (cli.js:957-966):
take each file's summary when one parses, stopping once `cap` summaries
are collected. -/
def collectSummaries (jd : JsDate) (env : SessionEnv) (cap : Nat) :
    List String → List Summary → List Summary
  | [], sessions => sessions
  | filePath :: rest, sessions =>
    let sessions :=
      match parseCodexSessionSummary jd env filePath with
      | some summary => sessions ++ [summary]
      | none => sessions
    if cap ≤ sessions.length then sessions
    else collectSummaries jd env cap rest sessions

/-- Embeds `listCodexSessions(limit)` (cli.js:946): scan recent `.jsonl` files
under the Codex sessions root, summarize them (bounded by the scan
factor), and merge/sort/limit. -/
def listCodexSessions (jd : JsDate) (env : SessionEnv) (limit : Nat) :
    List Summary :=
  let scanCount := Nat.max (limit * SESSION_SCAN_FACTOR)
    (Nat.min SESSION_SCAN_MIN_FILES (MAX_SESSION_LIST_SIZE * SESSION_SCAN_FACTOR))
  let files := collectRecentJsonlFiles env.fs CODEX_SESSIONS_DIR scanCount
    (Nat.max (scanCount * 2) SESSION_SCAN_MIN_FILES) ""
  let sessions := collectSummaries jd env (limit * SESSION_SCAN_FACTOR) files []
  mergeAndLimitSessions jd sessions limit

/-- Embeds `listAllSessions(params)` (cli.js:1080). The two per-source listers
are passed as functions of the clamped limit (`listCodexSessions` above
is one faithful instance; the Format B lister with its index fast path
is kept abstract). `rawLimit` is `Number(params.limit)` with `none` for
a non-finite result. Returns the session list and the updated cache. -/
def listAllSessions (jd : JsDate) (cache : SessionCache) (now : Int)
    (listCodex listClaude : Nat → List Summary)
    (source : String) (rawLimit : Option Int) (forceRefresh : Bool) :
    List Summary × SessionCache :=
  let src := if source = "codex" || source = "claude" then source else "all"
  let limit : Nat :=
    match rawLimit with
    | some n => (max 1 (min n (MAX_SESSION_LIST_SIZE : Int))).toNat
    | none => 120
  let cacheKey := src ++ ":" ++ toString limit
  match getSessionListCache cache cacheKey forceRefresh now with
  | (some cached, cache) => (cached, cache)
  | (none, cache) =>
    let sessions :=
      (if src = "all" || src = "codex" then listCodex limit else []) ++
        (if src = "all" || src = "claude" then listClaude limit else [])
    let result := mergeAndLimitSessions jd sessions limit
    (result, setSessionListCache cache cacheKey now result)

/-! ### Full-file message extraction (cli.js:1165-1293) -/

/-- State threaded through `extractMessagesFromRecords` /
`extractMessagesFromFile`. -/
structure ExtractState where
  sessionId : String
  cwd : String
  updatedAt : String
  messages : List Message

/-- The `state.updatedAt` refresh shared by both extractors
(cli.js:1166-1168, 1192-1194). -/
def touchUpdatedAt (jd : JsDate) (record : Rec) (state : ExtractState) :
    ExtractState :=
  if record.timestamp ≠ "" then
    { state with updatedAt := toIsoTime jd record.timestamp state.updatedAt }
  else state

/-- The dispatch on the record shape in `extractCodexMessageFromRecord`
(cli.js:1170-1188), after the `updatedAt` refresh. -/
def codexRecordDispatch (jd : JsDate) (record : Rec)
    (state : ExtractState) : ExtractState :=
  if record.rtype = "session_meta" then
    match record.payload with
    | some payload =>
      { state with
        sessionId := if payload.id ≠ "" then payload.id else state.sessionId
        cwd := if payload.cwd ≠ "" then payload.cwd else state.cwd }
    | none => state
  else if record.rtype = "response_item" then
    match record.payload with
    | some payload =>
      if payload.ptype = "message" then
        if normalizeRole payload.role = "user"
            || normalizeRole payload.role = "assistant"
            || normalizeRole payload.role = "system" then
          if extractMessageText payload.content ≠ ""
              && state.messages.length < MAX_EXPORT_MESSAGES then
            { state with messages := state.messages ++
                [{ role := normalizeRole payload.role,
                   text := extractMessageText payload.content,
                   timestamp := toIsoTime jd record.timestamp "" }] }
          else state
        else state
      else state
    | none => state
  else state

/-- Embeds `extractCodexMessageFromRecord(record, state)` (cli.js:1165). -/
def extractCodexMessageFromRecord (jd : JsDate) (record : Rec)
    (state : ExtractState) : ExtractState :=
  codexRecordDispatch jd record (touchUpdatedAt jd record state)

/-- The `sessionId` absorption of `extractClaudeMessageFromRecord`
(cli.js:1196-1198). -/
def claudeAbsorbSid (record : Rec) (state : ExtractState) : ExtractState :=
  if state.sessionId = "" && record.sessionId ≠ "" then
    { state with sessionId := record.sessionId }
  else state

/-- The `cwd` absorption of `extractClaudeMessageFromRecord`
(cli.js:1200-1202). -/
def claudeAbsorbCwd (record : Rec) (state : ExtractState) : ExtractState :=
  if state.cwd = "" && record.cwd ≠ "" then { state with cwd := record.cwd }
  else state

/-- The `sessionId` / `cwd` absorption of `extractClaudeMessageFromRecord`
(cli.js:1196-1202). -/
def claudeAbsorbMeta (record : Rec) (state : ExtractState) : ExtractState :=
  claudeAbsorbCwd record (claudeAbsorbSid record state)

/-- The message push of `extractClaudeMessageFromRecord`
(cli.js:1204-1215), after the metadata absorption. -/
def claudeRecordDispatch (jd : JsDate) (record : Rec)
    (state : ExtractState) : ExtractState :=
  if normalizeRole record.rtype = "user"
      || normalizeRole record.rtype = "assistant"
      || normalizeRole record.rtype = "system" then
    if extractMessageText ((record.message).getD (Content.str "")) ≠ ""
        && state.messages.length < MAX_EXPORT_MESSAGES then
      { state with messages := state.messages ++
          [{ role := normalizeRole record.rtype,
             text := extractMessageText ((record.message).getD (Content.str "")),
             timestamp := toIsoTime jd record.timestamp "" }] }
    else state
  else state

/-- Embeds `extractClaudeMessageFromRecord(record, state)` (cli.js:1191). -/
def extractClaudeMessageFromRecord (jd : JsDate) (record : Rec)
    (state : ExtractState) : ExtractState :=
  claudeRecordDispatch jd record
    (claudeAbsorbMeta record (touchUpdatedAt jd record state))

/-- Embeds `extractMessagesFromRecords(records, source)` (cli.js:1218). The loop
breaks once the message cap is reached; the per-record guard already
stops any further pushes, so the fold is observationally the same. -/
def extractMessagesFromRecords (jd : JsDate) (records : List Rec)
    (source : String) : ExtractState :=
  records.foldl
    (fun state record =>
      if source = "codex" then extractCodexMessageFromRecord jd record state
      else extractClaudeMessageFromRecord jd record state)
    { sessionId := "", cwd := "", updatedAt := "", messages := [] }

/-- Embeds `extractMessagesFromFile(filePath, source)` (cli.js:1241): stream the
whole file; in the model the parsed record stream is `env.fullRecs`, and
the buffered-read fallback parses the same records, so both paths reduce
to `extractMessagesFromRecords`. -/
def extractMessagesFromFile (jd : JsDate) (env : SessionEnv)
    (filePath source : String) : ExtractState :=
  extractMessagesFromRecords jd (env.fullRecs filePath) source

/-! ### Markdown rendering and the detail / export / delete operations -/

/-- The payload handed to `buildSessionMarkdown` by `exportSessionData`. -/
structure MarkdownPayload where
  sourceLabel : String
  sessionId : String
  updatedAt : String
  cwd : String
  filePath : String
  messages : List Message

/-- The role label of a message section (cli.js:1154): `Assistant` for
assistant messages and `User` for everything else. -/
def roleLabel (role : String) : String :=
  if role = "assistant" then "Assistant" else "User"

/-- Embeds JS `Array.prototype.join` with separator newline. -/
def joinLines : List String → String
  | [] => ""
  | [x] => x
  | x :: y :: rest => x ++ "\n" ++ joinLines (y :: rest)

/-- The lines pushed for the message sections of `buildSessionMarkdown`
(cli.js:1153-1160), with `index` the 0-based position of the first
message of `messages` in the full list. -/
def markdownSections (index : Nat) : List Message → List String
  | [] => []
  | message :: rest =>
    ("### " ++ toString (index + 1) ++ ". " ++ roleLabel message.role ++
        (if message.timestamp ≠ "" then " · " ++ message.timestamp else "")) ::
      "" :: (if message.text ≠ "" then message.text else "(empty message)") ::
      "" :: markdownSections (index + 1) rest

/-- Embeds `buildSessionMarkdown(payload)` (cli.js:1133). -/
def buildSessionMarkdown (payload : MarkdownPayload) : String :=
  let header : List String :=
    ["# AI Session Export", "",
     "- Source: " ++ payload.sourceLabel,
     "- Session ID: " ++ payload.sessionId,
     "- Updated At: " ++ (if payload.updatedAt ≠ "" then payload.updatedAt else "unknown"),
     "- Working Directory: " ++ (if payload.cwd ≠ "" then payload.cwd else "unknown"),
     "- Original File: " ++ payload.filePath,
     "", "## Messages", ""]
  if payload.messages.isEmpty then
    joinLines (header ++ ["(no user/assistant messages found)", ""])
  else
    joinLines (header ++ markdownSections 0 payload.messages)

/-- The result of `readSessionDetail`: either a structured error (the JS
`{ error }` object) or the detail payload. -/
inductive DetailResult where
  | error (msg : String)
  | ok (source sourceLabel sessionId cwd updatedAt : String)
      (totalMessages : Nat) (clipped : Bool) (messageLimit : Nat)
      (messages : List Message) (filePath : String)
deriving DecidableEq, Repr

/-- Returns `true` iff the result is the `{ error }` shape. -/
def DetailResult.isErr : DetailResult → Bool
  | .error _ => true
  | .ok _ _ _ _ _ _ _ _ _ _ => false

/-- Embeds `readSessionDetail(params)` (cli.js:1295): resolve the file, extract
all messages, apply the leading filter, and return the most recent
`messageLimit` messages with `totalMessages` and a `clipped` flag.
`rawLimit` is `Number(params.messageLimit)`, `none` for non-finite. -/
def readSessionDetail (jd : JsDate) (env : SessionEnv)
    (source filePath sessionId : String) (rawLimit : Option Int) :
    DetailResult :=
  let src := if source = "claude" then "claude"
    else if source = "codex" then "codex" else ""
  if src = "" then .error "Invalid source"
  else
    let resolved := resolveSessionFilePath env.fs src filePath sessionId
    if resolved = "" then .error "Session file not found"
    else
      let messageLimit : Nat :=
        match rawLimit with
        | some n => (max 1 (min n (MAX_SESSION_DETAIL_MESSAGES : Int))).toNat
        | none => DEFAULT_SESSION_DETAIL_MESSAGES
      let extracted := extractMessagesFromFile jd env resolved src
      let sid :=
        if extracted.sessionId ≠ "" then extracted.sessionId
        else if sessionId ≠ "" then sessionId
        else baseNameNoExt resolved
      let sourceLabel := if src = "codex" then "Codex" else "Claude Code"
      let allMessages := removeLeadingSystemMessage extracted.messages
      let startIndex := allMessages.length - messageLimit
      let clippedMessages := allMessages.drop startIndex
      .ok src sourceLabel sid extracted.cwd extracted.updatedAt
        allMessages.length (clippedMessages.length < allMessages.length)
        messageLimit clippedMessages resolved

/-- The result of `exportSessionData`. -/
inductive ExportResult where
  | error (msg : String)
  | ok (source sourceLabel sessionId fileName content : String)
deriving DecidableEq, Repr

/-- The markdown document of a successful export, `none` on error. -/
def ExportResult.contentOf : ExportResult → Option String
  | .error _ => none
  | .ok _ _ _ _ content => some content

/-- Embeds JS `String(sessionId).replace(/[^a-zA-Z0-9_-]/g, '_')` (cli.js:1372). -/
def sanitizeSessionId (s : String) : String :=
  ⟨s.data.map fun c =>
    if c.isAlpha || c.isDigit || c == '_' || c == '-' then c else '_'⟩

/-- Embeds `exportSessionData(params)` (cli.js:1332): resolve, extract the full
stream, fall back to a buffered re-read when nothing at all was
extracted (empty file error if that parses nothing), filter, check the
zero-message / zero-size case, and render the Markdown document. -/
def exportSessionData (jd : JsDate) (env : SessionEnv)
    (source filePath sessionId : String) : ExportResult :=
  let src := if source = "claude" then "claude"
    else if source = "codex" then "codex" else ""
  if src = "" then .error "Invalid source"
  else
    let resolved := resolveSessionFilePath env.fs src filePath sessionId
    if resolved = "" then .error "Session file not found"
    else
      let extracted := extractMessagesFromFile jd env resolved src
      if extracted.messages.isEmpty && extracted.sessionId = ""
          && extracted.cwd = "" && (env.fullRecs resolved).isEmpty then
        .error "Session file is empty"
      else
        let extracted :=
          if extracted.messages.isEmpty && extracted.sessionId = ""
              && extracted.cwd = "" then
            extractMessagesFromRecords jd (env.fullRecs resolved) src
          else extracted
        let messages := removeLeadingSystemMessage extracted.messages
        if messages.isEmpty
            && (!env.fs.existsPath resolved || env.fs.sizeOfFile resolved = 0) then
          .error "Session file is empty"
        else
          let sid :=
            if extracted.sessionId ≠ "" then extracted.sessionId
            else if sessionId ≠ "" then sessionId
            else baseNameNoExt resolved
          let sourceLabel := if src = "codex" then "Codex" else "Claude Code"
          let markdown := buildSessionMarkdown
            { sourceLabel := sourceLabel, sessionId := sid
              updatedAt := extracted.updatedAt, cwd := extracted.cwd
              filePath := resolved, messages := messages }
          .ok src sourceLabel sid
            (src ++ "-session-" ++ sanitizeSessionId sid ++ ".md") markdown

/-- The result of `deleteSessionFile`. -/
inductive DeleteResult where
  | error (msg : String)
  | ok (source sessionId filePath : String)
deriving DecidableEq, Repr

/-- Embeds `deleteSessionFile(params, options)` (cli.js:1392): resolve the target
the same way the readers do, require a `.jsonl` extension and a regular
file, unlink it, and invalidate the list cache unless deferred. Returns
the result together with the filesystem and cache after the call. -/
def deleteSessionFile (fs : FS) (cache : SessionCache)
    (source filePath sessionId : String) (skipCacheInvalidate : Bool) :
    DeleteResult × FS × SessionCache :=
  let src := if source = "claude" then "claude"
    else if source = "codex" then "codex" else ""
  if src = "" then (.error "Invalid source", fs, cache)
  else
    let resolved := resolveSessionFilePath fs src filePath sessionId
    if resolved = "" then (.error "Session file not found", fs, cache)
    else if !strEndsWith (jsToLower resolved) ".jsonl" then
      (.error "Invalid session file", fs, cache)
    else if !fs.existsPath resolved then
      (.error "Session file not found", fs, cache)
    else if !fs.isFile resolved then
      (.error "Session path is not a file", fs, cache)
    else
      let fs := fs.unlink resolved
      let cache := if skipCacheInvalidate then cache
        else invalidateSessionListCache cache
      (.ok src (if sessionId ≠ "" then sessionId else baseNameNoExt resolved)
        resolved, fs, cache)

/-! ### Helper lemmas: trimming -/

/-- Predicate `piecesInOrder ps l` holds when the chunks `ps` occur in `l` as
disjoint contiguous runs, in order. -/
def piecesInOrder : List (List Char) → List Char → Prop
  | [], _ => True
  | p :: ps, l => ∃ pre post, l = pre ++ p ++ post ∧ piecesInOrder ps post

/-- A concrete `Date` model on which nothing parses (valid for data that
carries no timestamps). -/
def jd0 : JsDate := { parse := fun _ => none, iso := fun _ => "" }

/-- The `session_meta` record of the specification's Format A scenario. -/
def c2meta : Rec :=
  { rtype := "session_meta", timestamp := "",
    payload := some { ptype := "", role := "", content := Content.other,
                      id := "abc", cwd := "/tmp", timestamp := "" },
    message := none, cwd := "", sessionId := "" }

/-- The user message record of the Format A scenario. -/
def c2user : Rec :=
  { rtype := "response_item", timestamp := "",
    payload := some { ptype := "message", role := "user",
                      content := Content.str "Fix bug", id := "", cwd := "",
                      timestamp := "" },
    message := none, cwd := "", sessionId := "" }

/-- The assistant message record of the Format A scenario. -/
def c2assistant : Rec :=
  { rtype := "response_item", timestamp := "",
    payload := some { ptype := "message", role := "assistant",
                      content := Content.str "Done", id := "", cwd := "",
                      timestamp := "" },
    message := none, cwd := "", sessionId := "" }

def c2File : String := "/home/user/.codex/sessions/abc.jsonl"

/-- A session environment holding exactly the scenario file. -/
def env2 : SessionEnv :=
  { fs := { files := [c2File], dirs := [CODEX_SESSIONS_DIR],
            sizes := [(c2File, 100)], mtimes := [(c2File, 1000)] },
    headRecs := fun _ => [c2meta, c2user, c2assistant],
    titleRecs := fun _ => [c2meta, c2user, c2assistant],
    fullRecs := fun _ => [c2meta, c2user, c2assistant],
    statOk := fun _ => true,
    mtimeIso := fun _ => "2024-01-01T00:00:00.000Z" }

/-! ### Claim theorems -/

/-- An example filesystem: one real session file under the Codex root and
one unrelated file outside it. -/
def fs1 : FS :=
  { files := ["/etc/passwd", "/home/user/.codex/sessions/a.jsonl"],
    dirs := [CODEX_SESSIONS_DIR], sizes := [], mtimes := [] }

/-- A concrete Codex summary. -/
def sumA : Summary :=
  { source := "codex", sourceLabel := "Codex", sessionId := "a",
    title := "a", cwd := "", createdAt := "", updatedAt := "",
    messageCount := 1, filePath := "/home/user/.codex/sessions/a.jsonl" }

/-- A concrete Claude summary. -/
def sumB : Summary :=
  { source := "claude", sourceLabel := "Claude Code", sessionId := "b",
    title := "b", cwd := "", createdAt := "", updatedAt := "",
    messageCount := 2, filePath := "/home/user/.claude/projects/p/b.jsonl" }

/-- The `totalMessages` field of a successful detail result. -/
def DetailResult.totalOf : DetailResult → Option Nat
  | .error _ => none
  | .ok _ _ _ _ _ totalMessages _ _ _ _ => some totalMessages

def c6File : String := "/home/user/.codex/sessions/empty.jsonl"

/-- An environment whose only session file parses to zero records. -/
def env6 : SessionEnv :=
  { fs := { files := [c6File], dirs := [CODEX_SESSIONS_DIR],
            sizes := [(c6File, 0)], mtimes := [(c6File, 0)] },
    headRecs := fun _ => [],
    titleRecs := fun _ => [],
    fullRecs := fun _ => [],
    statOk := fun _ => true,
    mtimeIso := fun _ => "" }

/-- The Markdown document exported from the scenario environment. -/
def c7md : String :=
  "# AI Session Export\n\n- Source: Codex\n- Session ID: abc\n- Updated At: unknown\n- Working Directory: /tmp\n- Original File: /home/user/.codex/sessions/abc.jsonl\n\n## Messages\n\n### 1. Assistant\n\nDone\n"

lemma dropWhile_headq_false (p : Char → Bool) (l : List Char) :
    ∀ x ∈ (l.dropWhile p).head?, p x = false := by
  induction l with
  | nil => simp
  | cons a rest ih =>
    by_cases hp : p a
    · simpa [List.dropWhile_cons_of_pos hp] using ih
    · simp [List.dropWhile_cons_of_neg hp, hp]

lemma dropWhile_eq_self_of_headq (p : Char → Bool) (l : List Char)
    (h : ∀ x ∈ l.head?, p x = false) : l.dropWhile p = l := by
  cases l with
  | nil => rfl
  | cons a rest =>
    have := h a (by simp)
    rw [List.dropWhile_cons_of_neg (by simp [this])]

lemma trimChars_idem (l : List Char) : trimChars (trimChars l) = trimChars l := by
  unfold trimChars
  set m := l.dropWhile isJsWs with hm
  set r := m.reverse.dropWhile isJsWs with hr2
  have hpre : r.reverse <+: m := by
    rw [← List.reverse_suffix]
    simpa [hr2] using
      (List.dropWhile_suffix isJsWs : m.reverse.dropWhile isJsWs <:+ m.reverse)
  have hstep1 : r.reverse.dropWhile isJsWs = r.reverse := by
    apply dropWhile_eq_self_of_headq
    intro x hx
    cases hrv : r.reverse with
    | nil => simp [hrv] at hx
    | cons y t =>
      rw [hrv] at hx
      simp only [List.head?_cons, Option.mem_def, Option.some.injEq] at hx
      subst hx
      obtain ⟨tail, htail⟩ := hpre
      rw [hrv] at htail
      have hm0 : y ∈ m.head? := by
        rw [← htail]; simp
      rw [hm] at hm0
      exact dropWhile_headq_false isJsWs l y hm0
  rw [hstep1, List.reverse_reverse, hr2, List.dropWhile_idempotent]

lemma jsTrim_idem (s : String) : jsTrim (jsTrim s) = jsTrim s :=
  congrArg String.mk (trimChars_idem s.data)

/-- Every result of the polymorphic text extraction is already
JS-trimmed: trimming it again changes nothing. -/
lemma jsTrim_extractMessageText :
    ∀ c : Content, jsTrim (extractMessageText c) = extractMessageText c
  | .str s => by
    simp only [extractMessageText]
    exact jsTrim_idem s
  | .arr items => by
    simp only [extractMessageText]
    exact jsTrim_idem _
  | .obj (some s) _ _ _ => by
    simp only [extractMessageText]
    exact jsTrim_idem s
  | .obj none (some s) _ _ => by
    simp only [extractMessageText]
    exact jsTrim_idem s
  | .obj none none (some inner) _ => by
    simp only [extractMessageText]
    exact jsTrim_extractMessageText inner
  | .obj none none none (some s) => by
    simp only [extractMessageText]
    exact jsTrim_idem s
  | .obj none none none none => by
    simp only [extractMessageText]
    rfl
  | .other => by
    simp only [extractMessageText]
    rfl

/-! ### Helper lemmas: the leading-message filter -/

lemma findStartIndex_ge (l : List Message) (i : Nat) : i ≤ findStartIndex l i := by
  unfold findStartIndex
  split
  · split
    · exact le_trans (Nat.le_succ i) (findStartIndex_ge l (i + 1))
    · exact le_refl i
  · exact le_refl i
termination_by l.length - i
decreasing_by
  simp_wf
  omega

lemma drop_findStartIndex (l : List Message) (i : Nat) :
    l.drop (findStartIndex l i) = (l.drop i).dropWhile fun m =>
      normalizeRole m.role == "system" || isBootstrapLikeText m.text := by
  by_cases h : i < l.length
  · rw [List.drop_eq_getElem_cons h]
    unfold findStartIndex
    rw [dif_pos h]
    by_cases hp : (normalizeRole (l.get ⟨i, h⟩).role == "system"
        || isBootstrapLikeText (l.get ⟨i, h⟩).text) = true
    · rw [if_pos hp]
      rw [List.dropWhile_cons_of_pos (by simpa using hp)]
      exact drop_findStartIndex l (i + 1)
    · rw [if_neg hp]
      rw [List.dropWhile_cons_of_neg (by simpa using hp)]
      rw [List.drop_eq_getElem_cons h]
  · unfold findStartIndex
    rw [dif_neg h]
    rw [List.drop_eq_nil_of_le (by omega)]
    simp
termination_by l.length - i
decreasing_by
  simp_wf
  omega

/-- Function `removeLeadingSystemMessage` is exactly: drop the first message, then
drop the leading run of system-role or bootstrap-like messages. -/
lemma removeLeadingSystemMessage_eq (l : List Message) :
    removeLeadingSystemMessage l = (l.drop 1).dropWhile fun m =>
      normalizeRole m.role == "system" || isBootstrapLikeText m.text := by
  cases l with
  | nil => rfl
  | cons a rest =>
    unfold removeLeadingSystemMessage
    have h1 : 1 ≤ findStartIndex (a :: rest) 1 := findStartIndex_ge _ 1
    have h0 : ¬(findStartIndex (a :: rest) 1 = 0) := by omega
    simp only [List.isEmpty_cons, if_neg h0, Bool.false_eq_true, if_false]
    exact drop_findStartIndex (a :: rest) 1

lemma mem_of_mem_removeLeading {m : Message} {l : List Message}
    (h : m ∈ removeLeadingSystemMessage l) : m ∈ l := by
  rw [removeLeadingSystemMessage_eq] at h
  exact List.mem_of_mem_drop ((List.dropWhile_suffix _).sublist.subset h)

/-! ### Helper lemmas: dedup, sort, merge -/

lemma mem_dedupeLoop_not_seen {x : Summary} :
    ∀ {items : List Summary} {seen : List String},
      x ∈ dedupeLoop items seen → ¬ seen.contains (sessionKey x) := by
  intro items
  induction items with
  | nil => intro seen h; simp [dedupeLoop] at h
  | cons item rest ih =>
    intro seen h
    unfold dedupeLoop at h
    split at h
    · exact ih h
    · split at h
      · exact ih h
      · rcases List.mem_cons.mp h with rfl | hmem
        · assumption
        · have h2 := ih hmem
          simp only [List.contains_cons, Bool.or_eq_true] at h2
          push_neg at h2
          intro hc
          exact h2.2 hc

lemma mem_dedupeLoop_subset {x : Summary} :
    ∀ {items : List Summary} {seen : List String},
      x ∈ dedupeLoop items seen → x ∈ items := by
  intro items
  induction items with
  | nil => intro seen h; simp [dedupeLoop] at h
  | cons item rest ih =>
    intro seen h
    unfold dedupeLoop at h
    split at h
    · exact List.mem_cons_of_mem _ (ih h)
    · split at h
      · exact List.mem_cons_of_mem _ (ih h)
      · rcases List.mem_cons.mp h with rfl | hmem
        · exact List.mem_cons_self _ _
        · exact List.mem_cons_of_mem _ (ih hmem)

lemma pairwise_key_dedupeLoop :
    ∀ (items : List Summary) (seen : List String),
      (dedupeLoop items seen).Pairwise fun a b => sessionKey a ≠ sessionKey b := by
  intro items
  induction items with
  | nil => intro seen; simp [dedupeLoop]
  | cons item rest ih =>
    intro seen
    unfold dedupeLoop
    split
    · exact ih seen
    · split
      · exact ih seen
      · refine List.Pairwise.cons ?_ (ih _)
        intro y hy hk
        have := mem_dedupeLoop_not_seen hy
        simp only [List.contains_cons] at this
        exact this (by simp [hk])

lemma pairwise_key_mergeAndLimit (jd : JsDate) (items : List Summary)
    (limit : Nat) :
    (mergeAndLimitSessions jd items limit).Pairwise
      fun a b => sessionKey a ≠ sessionKey b := by
  unfold mergeAndLimitSessions sortSessionsByUpdatedAt
  refine List.Pairwise.sublist (List.take_sublist _ _) ?_
  have hperm := List.mergeSort_perm (dedupeSessions items) (sessionDescLe jd)
  refine (List.Perm.pairwise_iff (fun h => h ∘ Eq.symm) hperm.symm).mp ?_
  exact pairwise_key_dedupeLoop items []

lemma pairwise_desc_mergeAndLimit (jd : JsDate) (items : List Summary)
    (limit : Nat) :
    (mergeAndLimitSessions jd items limit).Pairwise
      fun a b => updatedKey jd b ≤ updatedKey jd a := by
  unfold mergeAndLimitSessions sortSessionsByUpdatedAt
  refine List.Pairwise.sublist (List.take_sublist _ _) ?_
  have hs := @List.sorted_mergeSort _ (sessionDescLe jd)
    (fun a b c hab hbc => by
      simp only [sessionDescLe, decide_eq_true_eq] at *
      omega)
    (fun a b => by
      simp only [sessionDescLe]
      by_cases h : updatedKey jd b ≤ updatedKey jd a
      · simp [h]
      · simp [h]
        omega)
    (dedupeSessions items)
  exact hs.imp fun h => by simpa [sessionDescLe] using h

lemma length_mergeAndLimit_le (jd : JsDate) (items : List Summary)
    (limit : Nat) : (mergeAndLimitSessions jd items limit).length ≤ limit := by
  unfold mergeAndLimitSessions
  simp

lemma string_append_cancel_left {p a b : String} (h : p ++ a = p ++ b) :
    a = b := by
  have hd := congrArg String.data h
  simp only [String.data_append] at hd
  exact String.ext (List.append_cancel_left hd)

/-- On summaries whose `source` is one of the two real tags, the string
dedup key determines the `(source, filePath)` pair. -/
lemma sessionKey_inj {x y : Summary}
    (hx : x.source = "codex" ∨ x.source = "claude")
    (hy : y.source = "codex" ∨ y.source = "claude") :
    sessionKey x = sessionKey y ↔ (x.source = y.source ∧ x.filePath = y.filePath) := by
  constructor
  · intro h
    unfold sessionKey at h
    rcases hx with hx | hx <;> rcases hy with hy | hy <;>
      rw [hx, hy] at h
    · exact ⟨hx.trans hy.symm, string_append_cancel_left h⟩
    · exfalso
      have := congrArg (fun s => s.data.get? 1) h
      simp [String.data_append] at this
    · exfalso
      have := congrArg (fun s => s.data.get? 1) h
      simp [String.data_append] at this
    · exact ⟨hx.trans hy.symm, string_append_cancel_left h⟩
  · intro ⟨h1, h2⟩
    unfold sessionKey
    rw [h1, h2]

lemma dedupeLoop_eq_spec :
    ∀ (items : List Summary) (seen : List String),
      (∀ x ∈ items, x.source = "codex" ∨ x.source = "claude") →
      dedupeLoop items seen =
        dedupeSpec (items.filter fun x => !seen.contains (sessionKey x)) := by
  intro items
  induction items with
  | nil => intro seen _; simp [dedupeLoop, dedupeSpec]
  | cons item rest ih =>
    intro seen hsrc
    have hsrc_item := hsrc item (List.mem_cons_self _ _)
    have hsrc_rest : ∀ x ∈ rest, x.source = "codex" ∨ x.source = "claude" :=
      fun x hx => hsrc x (List.mem_cons_of_mem _ hx)
    unfold dedupeLoop
    by_cases hfp : item.filePath = ""
    · rw [if_pos hfp]
      by_cases hc : seen.contains (sessionKey item)
      · rw [List.filter_cons_of_neg (by simp; exact List.elem_iff.mp hc)]
        exact ih seen hsrc_rest
      · rw [List.filter_cons_of_pos (by simp; exact fun hm => hc (List.elem_iff.mpr hm))]
        unfold dedupeSpec
        rw [if_pos hfp]
        exact ih seen hsrc_rest
    · rw [if_neg hfp]
      by_cases hc : seen.contains (sessionKey item)
      · rw [if_pos hc]
        rw [List.filter_cons_of_neg (by simp; exact List.elem_iff.mp hc)]
        exact ih seen hsrc_rest
      · rw [if_neg hc]
        rw [List.filter_cons_of_pos (by simp; exact fun hm => hc (List.elem_iff.mpr hm))]
        unfold dedupeSpec
        rw [if_neg hfp]
        congr 1
        rw [ih (sessionKey item :: seen) hsrc_rest, List.filter_filter]
        congr 1
        apply List.filter_congr
        intro y hy
        have hkey := sessionKey_inj (hsrc_rest y hy) hsrc_item
        simp only [List.contains_cons, Bool.not_or]
        by_cases hk : sessionKey y = sessionKey item
        · have hp : y.source = item.source ∧ y.filePath = item.filePath :=
            hkey.mp hk
          simp [hk, hp]
        · have hp : ¬(y.source = item.source ∧ y.filePath = item.filePath) :=
            fun h => hk (hkey.mpr h)
          simp [hk, hp]

lemma dedupeSessions_eq_spec (items : List Summary)
    (h : ∀ x ∈ items, x.source = "codex" ∨ x.source = "claude") :
    dedupeSessions items = dedupeSpec items := by
  unfold dedupeSessions
  rw [dedupeLoop_eq_spec items [] h]
  congr 1
  simp

/-! ### Helper lemmas: path resolution -/

lemma resolveSessionFilePath_eq_empty (fs : FS) (source filePath sessionId : String)
    (hout : isPathInside (jsTrim filePath)
      (if source = "claude" then CLAUDE_PROJECTS_DIR else CODEX_SESSIONS_DIR) = false)
    (hsid : jsTrim sessionId = "" ∨
      ∀ f ∈ collectJsonlFiles fs
        (if source = "claude" then CLAUDE_PROJECTS_DIR else CODEX_SESSIONS_DIR) 5000,
        strContains (jsToLower (baseNameOf f)) (jsToLower (jsTrim sessionId)) = false) :
    resolveSessionFilePath fs source filePath sessionId = "" := by
  unfold resolveSessionFilePath
  by_cases hroot : fs.existsPath
      (if source = "claude" then CLAUDE_PROJECTS_DIR else CODEX_SESSIONS_DIR)
  · rw [if_neg (by simp [hroot])]
    have hbp : (if jsTrim filePath ≠ "" then
        if fs.existsPath (jsTrim filePath) && isPathInside (jsTrim filePath)
            (if source = "claude" then CLAUDE_PROJECTS_DIR else CODEX_SESSIONS_DIR)
          then jsTrim filePath else ""
      else "") = "" := by
      split
      · rw [if_neg (by simp [hout])]
      · rfl
    rw [hbp]
    rw [if_neg (by simp)]
    rcases hsid with hsid | hsid
    · rw [if_neg (by simp [hsid])]
    · split
      · have hfind : (collectJsonlFiles fs
            (if source = "claude" then CLAUDE_PROJECTS_DIR else CODEX_SESSIONS_DIR)
            5000).find? (fun item =>
              strContains (jsToLower (baseNameOf item)) (jsToLower (jsTrim sessionId)))
            = none := by
          apply List.find?_eq_none.mpr
          intro f hf
          simp [hsid f hf]
        simp only [hfind]
      · rfl
  · rw [if_pos (by simp [hroot])]

/-! ### Helper lemmas: extraction and summaries -/

lemma touchUpdatedAt_messages (jd : JsDate) (r : Rec) (st : ExtractState) :
    (touchUpdatedAt jd r st).messages = st.messages := by
  unfold touchUpdatedAt
  split <;> rfl

lemma claudeAbsorbMeta_messages (r : Rec) (st : ExtractState) :
    (claudeAbsorbMeta r st).messages = st.messages := by
  unfold claudeAbsorbMeta claudeAbsorbCwd claudeAbsorbSid
  split <;> split <;> rfl

lemma codexDispatch_text_ne (jd : JsDate) (r : Rec) (st : ExtractState)
    (h : ∀ m ∈ st.messages, m.text ≠ "") :
    ∀ m ∈ (codexRecordDispatch jd r st).messages, m.text ≠ "" := by
  intro m hm
  unfold codexRecordDispatch at hm
  split at hm
  · split at hm
    · exact h m hm
    · exact h m hm
  · split at hm
    · split at hm
      · split at hm
        · split at hm
          · split at hm
            · rename_i hguard
              rcases List.mem_append.mp hm with h2 | h2
              · exact h m h2
              · simp only [List.mem_singleton] at h2
                subst h2
                simp only [Bool.and_eq_true, decide_eq_true_eq] at hguard
                exact hguard.1
            · exact h m hm
          · exact h m hm
        · exact h m hm
      · exact h m hm
    · exact h m hm

lemma claudeDispatch_text_ne (jd : JsDate) (r : Rec) (st : ExtractState)
    (h : ∀ m ∈ st.messages, m.text ≠ "") :
    ∀ m ∈ (claudeRecordDispatch jd r st).messages, m.text ≠ "" := by
  intro m hm
  unfold claudeRecordDispatch at hm
  split at hm
  · split at hm
    · rename_i hguard
      rcases List.mem_append.mp hm with h2 | h2
      · exact h m h2
      · simp only [List.mem_singleton] at h2
        subst h2
        simp only [Bool.and_eq_true, decide_eq_true_eq] at hguard
        exact hguard.1
    · exact h m hm
  · exact h m hm

/-- Every message collected by the full-file extraction has nonempty
text (the code only pushes a message when its extracted text is
truthy). -/
lemma extractMessagesFromRecords_text_ne (jd : JsDate) (records : List Rec)
    (source : String) :
    ∀ m ∈ (extractMessagesFromRecords jd records source).messages,
      m.text ≠ "" := by
  unfold extractMessagesFromRecords
  generalize hinit : ({ sessionId := "", cwd := "", updatedAt := ""
                        messages := [] } : ExtractState) = init
  have hbase : ∀ m ∈ init.messages, m.text ≠ "" := by
    rw [← hinit]; intro m hm; simp at hm
  clear hinit
  induction records generalizing init with
  | nil => simpa using hbase
  | cons r rest ih =>
    simp only [List.foldl_cons]
    apply ih
    split
    · unfold extractCodexMessageFromRecord
      apply codexDispatch_text_ne
      rw [touchUpdatedAt_messages]
      exact hbase
    · unfold extractClaudeMessageFromRecord
      apply claudeDispatch_text_ne
      rw [claudeAbsorbMeta_messages, touchUpdatedAt_messages]
      exact hbase

lemma parseCodexSessionSummary_filePath {jd : JsDate} {env : SessionEnv}
    {f : String} {s : Summary}
    (h : parseCodexSessionSummary jd env f = some s) : s.filePath = f := by
  simp only [parseCodexSessionSummary] at h
  split at h
  · exact absurd h (by simp)
  · split at h
    · exact absurd h (by simp)
    · have hs := Option.some.inj h
      rw [← hs]
      rfl

lemma mem_collectSummaries {jd : JsDate} {env : SessionEnv} {cap : Nat}
    {s : Summary} :
    ∀ {files : List String} {acc : List Summary},
      s ∈ collectSummaries jd env cap files acc →
      s ∈ acc ∨ ∃ f ∈ files, parseCodexSessionSummary jd env f = some s := by
  intro files
  induction files with
  | nil =>
    intro acc h
    left
    simpa [collectSummaries] using h
  | cons f rest ih =>
    intro acc h
    simp only [collectSummaries] at h
    cases hp : parseCodexSessionSummary jd env f with
    | some summary =>
      rw [hp] at h
      split at h
      · rcases List.mem_append.mp h with h1 | h1
        · exact Or.inl h1
        · simp only [List.mem_singleton] at h1
          subst h1
          exact Or.inr ⟨f, List.mem_cons_self _ _, hp⟩
      · rcases ih h with h1 | ⟨g, hg, hgp⟩
        · rcases List.mem_append.mp h1 with h2 | h2
          · exact Or.inl h2
          · simp only [List.mem_singleton] at h2
            subst h2
            exact Or.inr ⟨f, List.mem_cons_self _ _, hp⟩
        · exact Or.inr ⟨g, List.mem_cons_of_mem _ hg, hgp⟩
    | none =>
      rw [hp] at h
      split at h
      · exact Or.inl h
      · rcases ih h with h1 | ⟨g, hg, hgp⟩
        · exact Or.inl h1
        · exact Or.inr ⟨g, List.mem_cons_of_mem _ hg, hgp⟩

/-- Scan-based listing omits any file whose head read parses to no
records: no returned summary points at it. -/
lemma listCodexSessions_omits {jd : JsDate} {env : SessionEnv} {limit : Nat}
    {f : String} (hhead : env.headRecs f = []) :
    ∀ s ∈ listCodexSessions jd env limit, s.filePath ≠ f := by
  intro s hs hfp
  simp only [listCodexSessions, mergeAndLimitSessions, sortSessionsByUpdatedAt,
    dedupeSessions] at hs
  have h1 := mem_dedupeLoop_subset
    ((List.mergeSort_perm _ _).mem_iff.mp (List.mem_of_mem_take hs))
  rcases mem_collectSummaries h1 with h2 | ⟨g, _, hgp⟩
  · simp at h2
  · have := parseCodexSessionSummary_filePath hgp
    rw [hfp] at this
    subst this
    simp [parseCodexSessionSummary, hhead] at hgp

/-! ### Helper lemmas: ordered substring containment in the Markdown -/

lemma piecesInOrder_nil (l : List Char) : piecesInOrder [] l := trivial

lemma piecesInOrder_append_left {ps : List (List Char)} {l : List Char}
    (x : List Char) (h : piecesInOrder ps l) : piecesInOrder ps (x ++ l) := by
  cases ps with
  | nil => trivial
  | cons p ps =>
    obtain ⟨pre, post, rfl, hrest⟩ := h
    exact ⟨x ++ pre, post, by simp, hrest⟩

lemma piecesInOrder_append_right {ps : List (List Char)} {l : List Char}
    (x : List Char) (h : piecesInOrder ps l) : piecesInOrder ps (l ++ x) := by
  induction ps generalizing l with
  | nil => trivial
  | cons p ps ih =>
    obtain ⟨pre, post, rfl, hrest⟩ := h
    exact ⟨pre, post ++ x, by simp, ih hrest⟩

lemma piecesInOrder_append {ps₁ ps₂ : List (List Char)} {l₁ l₂ : List Char}
    (h₁ : piecesInOrder ps₁ l₁) (h₂ : piecesInOrder ps₂ l₂) :
    piecesInOrder (ps₁ ++ ps₂) (l₁ ++ l₂) := by
  induction ps₁ generalizing l₁ with
  | nil => exact piecesInOrder_append_left l₁ h₂
  | cons p ps ih =>
    obtain ⟨pre, post, rfl, hrest⟩ := h₁
    exact ⟨pre, post ++ l₂, by simp, ih hrest⟩

lemma piecesInOrder_pair (a b p q r : List Char) :
    piecesInOrder [a, b] (p ++ (a ++ (q ++ (b ++ r)))) :=
  ⟨p, q ++ (b ++ r), by simp, q, r, by simp, trivial⟩

lemma joinLines_cons (x : String) (l : List String) (h : l ≠ []) :
    joinLines (x :: l) = x ++ "\n" ++ joinLines l := by
  cases l with
  | nil => exact absurd rfl h
  | cons y rest => rfl

lemma joinLines_append (xs ys : List String) (hy : ys ≠ []) :
    joinLines (xs ++ ys) =
      (xs.foldr (fun x acc => x ++ "\n" ++ acc) "") ++ joinLines ys := by
  induction xs with
  | nil => simp [joinLines]
  | cons x rest ih =>
    rw [List.cons_append,
      joinLines_cons x (rest ++ ys) (by simp [hy]),
      ih]
    simp [String.append_assoc]

lemma markdownSections_ne_nil (index : Nat) (m : Message) (rest : List Message) :
    markdownSections index (m :: rest) ≠ [] := by
  simp [markdownSections]

/-- The message sections of the Markdown rendering contain each message's
role label and then its text, in message order. -/
lemma piecesInOrder_markdownSections (index : Nat) (messages : List Message)
    (htext : ∀ m ∈ messages, m.text ≠ "") :
    piecesInOrder
      (messages.flatMap fun m => [(roleLabel m.role).data, m.text.data])
      (joinLines (markdownSections index messages)).data := by
  induction messages generalizing index with
  | nil => simp [piecesInOrder_nil]
  | cons m rest ih =>
    have hm : m.text ≠ "" := htext m (List.mem_cons_self _ _)
    have hsection : ∀ tail : List Char,
        piecesInOrder [(roleLabel m.role).data, m.text.data]
          (("### " ++ toString (index + 1) ++ ". " ++ roleLabel m.role ++
              (if m.timestamp ≠ "" then " · " ++ m.timestamp else "") ++ "\n" ++
              "" ++ "\n" ++ m.text).data ++ tail) := by
      intro tail
      have := piecesInOrder_pair (roleLabel m.role).data m.text.data
        ("### " ++ toString (index + 1) ++ ". ").data
        ((if m.timestamp ≠ "" then " · " ++ m.timestamp else "") ++ "\n" ++
          "" ++ "\n").data
        tail
      simpa [String.data_append, List.append_assoc] using this
    cases rest with
    | nil =>
      rw [show markdownSections index [m] =
        [("### " ++ toString (index + 1) ++ ". " ++ roleLabel m.role ++
            (if m.timestamp ≠ "" then " · " ++ m.timestamp else "")), "",
          (if m.text ≠ "" then m.text else "(empty message)"), ""] from rfl]
      rw [show joinLines
          [("### " ++ toString (index + 1) ++ ". " ++ roleLabel m.role ++
              (if m.timestamp ≠ "" then " · " ++ m.timestamp else "")), "",
            (if m.text ≠ "" then m.text else "(empty message)"), ""] =
          ("### " ++ toString (index + 1) ++ ". " ++ roleLabel m.role ++
              (if m.timestamp ≠ "" then " · " ++ m.timestamp else "")) ++ "\n" ++
            ("" ++ "\n" ++ ((if m.text ≠ "" then m.text else "(empty message)")
              ++ "\n" ++ "")) from rfl]
      rw [if_pos hm]
      have := hsection ("\n" ++ "").data
      simp only [List.flatMap_cons, List.flatMap_nil, List.append_nil]
      simp only [String.data_append, List.append_assoc] at this ⊢
      simpa [List.append_assoc] using this
    | cons m2 rest2 =>
      rw [show markdownSections index (m :: m2 :: rest2) =
        ([("### " ++ toString (index + 1) ++ ". " ++ roleLabel m.role ++
            (if m.timestamp ≠ "" then " · " ++ m.timestamp else "")), "",
          (if m.text ≠ "" then m.text else "(empty message)"), ""] ++
          markdownSections (index + 1) (m2 :: rest2)) from rfl]
      rw [joinLines_append _ _ (markdownSections_ne_nil _ _ _)]
      rw [show List.foldr (fun x acc => x ++ "\n" ++ acc) ""
          [("### " ++ toString (index + 1) ++ ". " ++ roleLabel m.role ++
              (if m.timestamp ≠ "" then " · " ++ m.timestamp else "")), "",
            (if m.text ≠ "" then m.text else "(empty message)"), ""] =
          ("### " ++ toString (index + 1) ++ ". " ++ roleLabel m.role ++
              (if m.timestamp ≠ "" then " · " ++ m.timestamp else "")) ++ "\n" ++
            ("" ++ "\n" ++ ((if m.text ≠ "" then m.text else "(empty message)")
              ++ "\n" ++ ("" ++ "\n" ++ ""))) from rfl]
      rw [if_pos hm]
      have htail := ih (index + 1)
        (fun x hx => htext x (List.mem_cons_of_mem _ hx))
      have hcomb := piecesInOrder_append (hsection ("\n" ++ ("" ++ "\n" ++ "")).data)
        htail
      simp only [List.flatMap_cons]
      simp only [String.data_append, List.append_assoc] at hcomb ⊢
      simpa [List.append_assoc] using hcomb

/-- The rendered Markdown contains, for each message in order, the
message's role label and then its text, as contiguous runs. -/
lemma piecesInOrder_buildSessionMarkdown (payload : MarkdownPayload)
    (htext : ∀ m ∈ payload.messages, m.text ≠ "") :
    piecesInOrder
      (payload.messages.flatMap fun m => [(roleLabel m.role).data, m.text.data])
      (buildSessionMarkdown payload).data := by
  simp only [buildSessionMarkdown]
  split
  · rename_i hemp
    have : payload.messages = [] := by simpa using hemp
    rw [this]
    exact piecesInOrder_nil _
  · rename_i hemp
    have hne : payload.messages ≠ [] := by simpa using hemp
    have hsec : markdownSections 0 payload.messages ≠ [] := by
      cases hmsg : payload.messages with
      | nil => exact absurd hmsg hne
      | cons a rest => exact markdownSections_ne_nil _ _ _
    rw [joinLines_append _ _ hsec]
    rw [String.data_append]
    exact piecesInOrder_append_left _
      (piecesInOrder_markdownSections 0 payload.messages htext)

/-! ### Concrete instances used by witnesses and counterexamples -/

/-- C10: `isPathInside` compares the lowercased resolved paths — equal to
the root, or extending it across a separator — so the containment check
is case-insensitive, and a path that differs from a contained one only
in letter case (here `/ROOT/x` against root `/root`) is accepted as
inside even though it is not case-sensitively inside. -/
theorem claim_C10 :
    (∀ target root : String, ¬ strEndsWith (jsToLower root) "/" →
      isPathInside target root =
        (jsToLower target == jsToLower root
          || strStartsWith (jsToLower target) (jsToLower root ++ "/"))) ∧
    isPathInside "/ROOT/x" "/root" = true ∧
    ("/ROOT/x" == "/root" || strStartsWith "/ROOT/x" "/root/") = false := by
  refine ⟨?_, by decide, by decide⟩
  intro t r h
  simp only [isPathInside]
  by_cases heq : jsToLower t == jsToLower r
  · simp [heq]
  · simp [heq, h]

/-- C10 witness: the characterization applied at a concrete pair. -/
theorem claim_C10_witness :
    isPathInside "/home/user/.codex/sessions/a.jsonl" "/home/user/.codex/sessions"
      = (jsToLower "/home/user/.codex/sessions/a.jsonl" ==
          jsToLower "/home/user/.codex/sessions"
        || strStartsWith (jsToLower "/home/user/.codex/sessions/a.jsonl")
          (jsToLower "/home/user/.codex/sessions" ++ "/")) :=
  claim_C10.1 "/home/user/.codex/sessions/a.jsonl" "/home/user/.codex/sessions"
    (by decide)

/-- C9: the claim says the title fallback re-reads a prefix strictly
larger than the default head read. In the code the title re-read is
`SESSION_TITLE_READ_BYTES = 64 KiB`, strictly smaller than the default
`SESSION_SUMMARY_READ_BYTES = 256 KiB` — the fallback re-read is
subsumed by the head read and can never find a new title, so the claim
describes the evident intent and the code has the bound wrong. The
second conjunct confirms the rest of the claim: `messageCount` is not
recomputed from the title re-read (it does not depend on it). -/
theorem claim_C9 :
    SESSION_TITLE_READ_BYTES < SESSION_SUMMARY_READ_BYTES ∧
    ∀ (scan : SummaryScan) (tm tm' : List Message) (f src lbl : String),
      (finishSummary scan tm f src lbl).messageCount =
        (finishSummary scan tm' f src lbl).messageCount := by
  exact ⟨by decide, fun scan tm tm' f src lbl => rfl⟩

/-- C8 counterexample: a plain string content whose trimmed text still
contains a newline — extraction does not collapse interior whitespace,
so extracted text can be multi-line, refuting the claim that it never
contains newline characters. -/
theorem claim_C8_counterexample :
    (extractMessageText (Content.str "line1\nline2")).data.contains '\n'
      = true := by
  decide

/-- C8 (amended): extracted text is JS-trimmed at both ends — string
content is returned trimmed, and trimming any extraction result again is
the identity — but it is not whitespace-collapsed and may contain
interior newlines (a two-element sequence extracts to the two parts
joined by a newline). -/
theorem claim_C8 :
    (∀ s : String, extractMessageText (Content.str s) = jsTrim s) ∧
    (∀ c : Content, jsTrim (extractMessageText c) = extractMessageText c) ∧
    extractMessageText (Content.arr [Content.str "a", Content.str "b"])
      = "a\nb" := by
  refine ⟨fun s => by simp [extractMessageText], jsTrim_extractMessageText,
    by decide⟩

/-- C3: the leading-message filter always skips index 0, then drops the
leading run of system-role or bootstrap-like messages and returns the
rest in order (the empty list maps to itself, since dropping from the
empty list is empty); on the specification's example the two leading
preamble messages are dropped. -/
theorem claim_C3 :
    (∀ messages : List Message,
      removeLeadingSystemMessage messages =
        (messages.drop 1).dropWhile fun m =>
          normalizeRole m.role == "system" || isBootstrapLikeText m.text) ∧
    removeLeadingSystemMessage
      [{ role := "system", text := "System preamble", timestamp := "" },
       { role := "user", text := "<INSTRUCTIONS>\nAlways be helpful",
         timestamp := "" },
       { role := "user", text := "hello", timestamp := "" },
       { role := "assistant", text := "hi", timestamp := "" }] =
      [{ role := "user", text := "hello", timestamp := "" },
       { role := "assistant", text := "hi", timestamp := "" }] := by
  refine ⟨removeLeadingSystemMessage_eq, ?_⟩
  rw [removeLeadingSystemMessage_eq]
  decide

/-- C2 counterexample: on the specification's Format A scenario the
extractor does not return title `"Fix bug"` and message count 2 — the
leading filter unconditionally drops the first collected message (the
`"Fix bug"` user message), so the count is 1 and no title candidate
remains. -/
theorem claim_C2_counterexample :
    Option.map Summary.title (parseCodexSessionSummary jd0 env2 c2File)
      ≠ some "Fix bug" ∧
    Option.map Summary.messageCount (parseCodexSessionSummary jd0 env2 c2File)
      ≠ some 2 := by
  constructor
  · simp only [parseCodexSessionSummary, finishSummary,
      removeLeadingSystemMessage_eq]
    decide
  · simp only [parseCodexSessionSummary, finishSummary,
      removeLeadingSystemMessage_eq]
    decide

/-- C2 (amended): on the Format A scenario file the Summary Extractor
returns sessionId `"abc"` and cwd `"/tmp"` as claimed, but title `"abc"`
(the session id — the unconditional skip of message index 0 removes
`"Fix bug"`, and no later user message exists) and messageCount 1. -/
theorem claim_C2 :
    parseCodexSessionSummary jd0 env2 c2File = some
      { source := "codex", sourceLabel := "Codex", sessionId := "abc",
        title := "abc", cwd := "/tmp", createdAt := "",
        updatedAt := "2024-01-01T00:00:00.000Z", messageCount := 1,
        filePath := c2File } := by
  simp only [parseCodexSessionSummary, finishSummary,
    removeLeadingSystemMessage_eq]
  decide

/-- C1: when the trimmed, resolved `filePath` fails the containment check
against the per-source session root, and the `sessionId` (if any) matches
no collected `.jsonl` file under that root, `deleteSessionFile` returns
the "Session file not found" error and both the filesystem and the cache
are unchanged — no file is removed. -/
theorem claim_C1 (fs : FS) (cache : SessionCache)
    (source filePath sessionId : String) (skip : Bool)
    (hsrc : source = "codex" ∨ source = "claude")
    (hout : isPathInside (jsTrim filePath)
      (if source = "claude" then CLAUDE_PROJECTS_DIR else CODEX_SESSIONS_DIR)
      = false)
    (hsid : jsTrim sessionId = "" ∨
      ∀ f ∈ collectJsonlFiles fs
        (if source = "claude" then CLAUDE_PROJECTS_DIR else CODEX_SESSIONS_DIR)
        5000,
        strContains (jsToLower (baseNameOf f)) (jsToLower (jsTrim sessionId))
          = false) :
    deleteSessionFile fs cache source filePath sessionId skip =
      (DeleteResult.error "Session file not found", fs, cache) := by
  rcases hsrc with rfl | rfl
  · have hres := resolveSessionFilePath_eq_empty fs "codex" filePath sessionId
      hout hsid
    simp [deleteSessionFile, hres]
  · have hres := resolveSessionFilePath_eq_empty fs "claude" filePath sessionId
      hout hsid
    simp [deleteSessionFile, hres]

/-- C1 witness: deleting with `filePath = "/etc/passwd"` (outside the
Codex sessions root) and no session id reports "not found" and leaves
the filesystem untouched. -/
theorem claim_C1_witness :
    (isPathInside (jsTrim "/etc/passwd")
      (if "codex" = "claude" then CLAUDE_PROJECTS_DIR else CODEX_SESSIONS_DIR)
      = false) ∧
    jsTrim "" = "" ∧
    deleteSessionFile fs1 [] "codex" "/etc/passwd" "" false =
      (DeleteResult.error "Session file not found", fs1, []) :=
  ⟨by decide, by decide,
    claim_C1 fs1 [] "codex" "/etc/passwd" "" false (Or.inl rfl) (by decide)
      (Or.inl (by decide))⟩

/-- C5: the merged result never contains two entries with the same
`(source, filePath)` pair, and the dedup stage is exactly the
specification's "keep the first occurrence, drop the later ones"
filter (on summaries carrying the two real source tags, the string key
`source:filePath` determines the pair). -/
theorem claim_C5 (jd : JsDate) (items : List Summary) (limit : Nat)
    (hsrc : ∀ x ∈ items, x.source = "codex" ∨ x.source = "claude") :
    (mergeAndLimitSessions jd items limit).Pairwise
      (fun a b => ¬(a.source = b.source ∧ a.filePath = b.filePath)) ∧
    dedupeSessions items = dedupeSpec items := by
  constructor
  · refine (pairwise_key_mergeAndLimit jd items limit).imp ?_
    intro a b hk hpair
    apply hk
    unfold sessionKey
    rw [hpair.1, hpair.2]
  · exact dedupeSessions_eq_spec items hsrc

/-- C5 witness: the dedup/merge guarantees applied to a concrete list
with a duplicated entry. -/
theorem claim_C5_witness :
    (∀ x ∈ [sumA, sumB, sumA], x.source = "codex" ∨ x.source = "claude") ∧
    ((mergeAndLimitSessions jd0 [sumA, sumB, sumA] 10).Pairwise
      (fun a b => ¬(a.source = b.source ∧ a.filePath = b.filePath)) ∧
    dedupeSessions [sumA, sumB, sumA] = dedupeSpec [sumA, sumB, sumA]) :=
  ⟨by decide, claim_C5 jd0 [sumA, sumB, sumA] 10 (by decide)⟩

lemma getSessionListCache_some {cache : SessionCache} {k : String}
    {force : Bool} {now : Int} {v : List Summary} {c2 : SessionCache}
    (h : getSessionListCache cache k force now = (some v, c2)) :
    ∃ ts, (k, ts, v) ∈ cache := by
  unfold getSessionListCache at h
  split at h
  · simp at h
  · cases hf : cache.find? fun e => e.1 = k with
    | none => rw [hf] at h; simp at h
    | some entry =>
      simp only [hf] at h
      split at h
      · simp at h
      · have hmem := List.mem_of_find?_eq_some hf
        have hk : entry.1 = k := by
          have := List.find?_some hf
          simpa using this
        have hv : entry.2.2 = v := by
          have := congrArg Prod.fst h
          simpa using this
        refine ⟨entry.2.1, ?_⟩
        have : (k, entry.2.1, v) = entry := by
          rw [← hk, ← hv]
        rw [this]
        exact hmem

/-- C4 (amended): for every limit `L ≥ 1`, `listSessions(limit=L)` (with
well-formed cache entries for the queried key) returns at most `L`
entries, sorted by `updatedAt` descending — entries whose `updatedAt`
is missing or unparsable carry sort key 0 and so sort as the earliest
whenever parsed timestamps are non-negative (the final conjunct). -/
theorem claim_C4 (jd : JsDate) (cache : SessionCache) (now : Int)
    (listCodex listClaude : Nat → List Summary) (source : String)
    (L : Int) (force : Bool)
    (hL : 1 ≤ L)
    (hpos : ∀ s t, jd.parse s = some t → 0 ≤ t)
    (hcache : ∀ ts v,
      ((if source = "codex" || source = "claude" then source else "all") ++ ":"
        ++ toString ((max 1 (min L (MAX_SESSION_LIST_SIZE : Int))).toNat),
        ts, v) ∈ cache →
      v.length ≤ (max 1 (min L (MAX_SESSION_LIST_SIZE : Int))).toNat ∧
      v.Pairwise fun a b => updatedKey jd b ≤ updatedKey jd a) :
    (((listAllSessions jd cache now listCodex listClaude source (some L)
        force).1.length : Int) ≤ L) ∧
    (listAllSessions jd cache now listCodex listClaude source (some L)
        force).1.Pairwise (fun a b => updatedKey jd b ≤ updatedKey jd a) ∧
    ∀ a ∈ (listAllSessions jd cache now listCodex listClaude source (some L)
        force).1,
      jd.parse a.updatedAt = none →
      ∀ b ∈ (listAllSessions jd cache now listCodex listClaude source (some L)
        force).1, updatedKey jd a ≤ updatedKey jd b := by
  have hlimle : ((max 1 (min L (MAX_SESSION_LIST_SIZE : Int))).toNat : Int)
      ≤ L := by
    rw [Int.toNat_of_nonneg (by omega)]
    have : (MAX_SESSION_LIST_SIZE : Int) = 300 := by decide
    omega
  have hmin : ∀ b : Summary, 0 ≤ updatedKey jd b := by
    intro b
    unfold updatedKey
    cases hb : jd.parse b.updatedAt with
    | none => simp
    | some t => simpa using hpos _ _ hb
  have hkey3 : ∀ (l : List Summary), ∀ a ∈ l, jd.parse a.updatedAt = none →
      ∀ b ∈ l, updatedKey jd a ≤ updatedKey jd b := by
    intro l a _ ha b _
    have : updatedKey jd a = 0 := by
      unfold updatedKey
      rw [ha]
      rfl
    rw [this]
    exact hmin b
  cases hsplit : getSessionListCache cache
      ((if source = "codex" || source = "claude" then source else "all") ++ ":"
        ++ toString ((max 1 (min L (MAX_SESSION_LIST_SIZE : Int))).toNat))
      force now with
  | mk ov c2 =>
    cases ov with
    | some v =>
      have hres : (listAllSessions jd cache now listCodex listClaude source
          (some L) force).1 = v := by
        simp only [listAllSessions, hsplit]
      rw [hres]
      obtain ⟨ts, hmem⟩ := getSessionListCache_some hsplit
      obtain ⟨hlen, hsort⟩ := hcache ts v hmem
      exact ⟨le_trans (by exact_mod_cast hlen) hlimle, hsort, hkey3 v⟩
    | none =>
      have hres : (listAllSessions jd cache now listCodex listClaude source
          (some L) force).1 = mergeAndLimitSessions jd
            ((if (if source = "codex" || source = "claude" then source
                else "all") = "all" || (if source = "codex"
                || source = "claude" then source else "all") = "codex" then
              listCodex ((max 1 (min L (MAX_SESSION_LIST_SIZE : Int))).toNat)
              else []) ++
              (if (if source = "codex" || source = "claude" then source
                else "all") = "all" || (if source = "codex"
                || source = "claude" then source else "all") = "claude" then
              listClaude ((max 1 (min L (MAX_SESSION_LIST_SIZE : Int))).toNat)
              else []))
            ((max 1 (min L (MAX_SESSION_LIST_SIZE : Int))).toNat) := by
        simp only [listAllSessions, hsplit]
      rw [hres]
      refine ⟨le_trans ?_ hlimle, pairwise_desc_mergeAndLimit jd _ _,
        hkey3 _⟩
      exact_mod_cast length_mergeAndLimit_le jd _ _

/-- C4 counterexample: with limit `L = 0` the claim "at most L entries"
fails — the code clamps the limit up to 1 and can return one entry. -/
theorem claim_C4_counterexample :
    ¬ ((listAllSessions jd0 [] 0 (fun _ => [sumA]) (fun _ => []) "codex"
        (some 0) false).1.length ≤ 0) := by
  have hres : (listAllSessions jd0 [] 0 (fun _ => [sumA]) (fun _ => [])
      "codex" (some 0) false).1
      = (List.mergeSort [sumA] (sessionDescLe jd0)).take 1 := rfl
  rw [hres, List.mergeSort_singleton]
  decide

/-- C4 witness: the amended bound applied at limit 2 with an empty
cache. -/
theorem claim_C4_witness :
    ((1 : Int) ≤ 2) ∧
    ((((listAllSessions jd0 [] 0 (fun _ => [sumA]) (fun _ => []) "codex"
        (some 2) false).1.length : Int) ≤ 2) ∧
    (listAllSessions jd0 [] 0 (fun _ => [sumA]) (fun _ => []) "codex"
        (some 2) false).1.Pairwise
      (fun a b => updatedKey jd0 b ≤ updatedKey jd0 a) ∧
    ∀ a ∈ (listAllSessions jd0 [] 0 (fun _ => [sumA]) (fun _ => []) "codex"
        (some 2) false).1,
      jd0.parse a.updatedAt = none →
      ∀ b ∈ (listAllSessions jd0 [] 0 (fun _ => [sumA]) (fun _ => []) "codex"
        (some 2) false).1, updatedKey jd0 a ≤ updatedKey jd0 b) :=
  ⟨by decide,
    claim_C4 jd0 [] 0 (fun _ => [sumA]) (fun _ => []) "codex" 2 false
      (by decide)
      (fun s t h => by simp [jd0] at h)
      (fun ts v h => by simp at h)⟩

/-- C6 (amended): a session file with zero parseable lines yields a null
summary in both formats, so the scan-based Codex listing omits it;
`exportSession` on it returns the "empty" error, which is distinct from
the "not found" error; `getSessionDetail` on it does NOT return an
error — it returns a successful detail with zero messages. -/
theorem claim_C6 (jd : JsDate) (env : SessionEnv)
    (source filePath sessionId f : String) (rawLimit : Option Int)
    (limit : Nat)
    (hsrc : source = "codex" ∨ source = "claude")
    (hres : resolveSessionFilePath env.fs source filePath sessionId = f)
    (hf : f ≠ "")
    (hhead : env.headRecs f = [])
    (hfull : env.fullRecs f = []) :
    parseCodexSessionSummary jd env f = none ∧
    parseClaudeSessionSummary jd env f = none ∧
    (∀ s ∈ listCodexSessions jd env limit, s.filePath ≠ f) ∧
    exportSessionData jd env source filePath sessionId =
      ExportResult.error "Session file is empty" ∧
    (readSessionDetail jd env source filePath sessionId rawLimit).isErr
      = false ∧
    DetailResult.totalOf
      (readSessionDetail jd env source filePath sessionId rawLimit)
      = some 0 ∧
    ("Session file is empty" : String) ≠ "Session file not found" := by
  refine ⟨by simp [parseCodexSessionSummary, hhead],
    by simp [parseClaudeSessionSummary, hhead],
    listCodexSessions_omits hhead, ?_, ?_, ?_, by decide⟩
  · rcases hsrc with rfl | rfl <;>
    · simp only [exportSessionData] at *
      simp [hres, hf, hfull, extractMessagesFromFile,
        extractMessagesFromRecords]
  · rcases hsrc with rfl | rfl <;>
    · simp only [readSessionDetail] at *
      simp [hres, hf, hfull, extractMessagesFromFile,
        extractMessagesFromRecords, DetailResult.isErr]
  · rcases hsrc with rfl | rfl <;>
    · simp only [readSessionDetail] at *
      simp [hres, hf, hfull, extractMessagesFromFile,
        extractMessagesFromRecords, DetailResult.totalOf,
        removeLeadingSystemMessage]

/-- C6 counterexample: on a resolvable session file with zero parseable
lines, `getSessionDetail` does not return the claimed "empty" error — it
succeeds (with zero messages). -/
theorem claim_C6_counterexample :
    (readSessionDetail jd0 env6 "codex" c6File "" none).isErr = false := by
  decide

/-- C6 witness: the amended claim applied to a concrete empty session
file. -/
theorem claim_C6_witness :
    (resolveSessionFilePath env6.fs "codex" c6File "" = c6File) ∧
    (env6.headRecs c6File = []) ∧
    (parseCodexSessionSummary jd0 env6 c6File = none ∧
    parseClaudeSessionSummary jd0 env6 c6File = none ∧
    (∀ s ∈ listCodexSessions jd0 env6 5, s.filePath ≠ c6File) ∧
    exportSessionData jd0 env6 "codex" c6File "" =
      ExportResult.error "Session file is empty" ∧
    (readSessionDetail jd0 env6 "codex" c6File "" none).isErr = false ∧
    DetailResult.totalOf (readSessionDetail jd0 env6 "codex" c6File "" none)
      = some 0 ∧
    ("Session file is empty" : String) ≠ "Session file not found") :=
  ⟨by decide, rfl,
    claim_C6 jd0 env6 "codex" c6File "" c6File none 5 (Or.inl rfl)
      (by decide) (by decide) rfl rfl⟩

/-- Restatement of `piecesInOrder_buildSessionMarkdown` with the message
list explicit, for first-order unification. -/
lemma piecesInOrder_buildSessionMarkdown2 (payload : MarkdownPayload)
    (msgs : List Message) (hmsgs : payload.messages = msgs)
    (htext : ∀ m ∈ msgs, m.text ≠ "") :
    piecesInOrder
      (msgs.flatMap fun m => [(roleLabel m.role).data, m.text.data])
      (buildSessionMarkdown payload).data := by
  subst hmsgs
  exact piecesInOrder_buildSessionMarkdown payload htext

/-- C7: whenever `exportSession` succeeds, the produced Markdown document
contains, for each post-filter extracted message in original order, the
message's role label and then its text verbatim, as disjoint contiguous
runs. -/
theorem claim_C7 (jd : JsDate) (env : SessionEnv)
    (source filePath sessionId c : String)
    (hsrc : source = "codex" ∨ source = "claude")
    (h : (exportSessionData jd env source filePath sessionId).contentOf
      = some c) :
    piecesInOrder
      ((removeLeadingSystemMessage
        (extractMessagesFromRecords jd
          (env.fullRecs (resolveSessionFilePath env.fs source filePath
            sessionId)) source).messages).flatMap
        fun m => [(roleLabel m.role).data, m.text.data])
      c.data := by
  rcases hsrc with rfl | rfl <;>
  · simp only [exportSessionData, extractMessagesFromFile, String.reduceEq,
      reduceIte] at h
    split at h
    · simp [ExportResult.contentOf] at h
    · split at h
      · simp [ExportResult.contentOf] at h
      · split at h <;>
        · split at h
          · simp [ExportResult.contentOf] at h
          · simp only [ExportResult.contentOf, Option.some.injEq] at h
            rw [← h]
            refine piecesInOrder_buildSessionMarkdown2 _ _ rfl ?_
            intro m hm
            exact extractMessagesFromRecords_text_ne jd _ _ m
              (mem_of_mem_removeLeading hm)

set_option maxRecDepth 4096 in
lemma c7_export_eval :
    (exportSessionData jd0 env2 "codex" c2File "").contentOf = some c7md := by
  simp only [exportSessionData, extractMessagesFromFile,
    removeLeadingSystemMessage_eq]
  decide

/-- C7 witness: the containment property applied to the concrete export
of the scenario environment. -/
theorem claim_C7_witness :
    ((exportSessionData jd0 env2 "codex" c2File "").contentOf = some c7md) ∧
    piecesInOrder
      ((removeLeadingSystemMessage
        (extractMessagesFromRecords jd0
          (env2.fullRecs (resolveSessionFilePath env2.fs "codex" c2File ""))
          "codex").messages).flatMap
        fun m => [(roleLabel m.role).data, m.text.data])
      c7md.data :=
  ⟨c7_export_eval,
    claim_C7 jd0 env2 "codex" c2File "" c7md (Or.inl rfl) c7_export_eval⟩
